import Mathlib

set_option maxHeartbeats 1000000

/-!
Shallow embedding of the django-fperms permission core.

The repository under verification ships three Python files:
src/django_perms/admin.py (admin integration: PermModelAdmin.add_perm,
PermModelAdmin.has_perm, PermModelAdmin.save_model, PermChangeList.get_queryset)
and two test files (src/example/articles/tests/perms/model.py and field.py)
exercising the fperms manager (add_perm / has_perm by string, group
inheritance, wildcard).  The core models, manager and identifier parser are
not under src/; where a definition embeds that missing core it is modelled
from the spec (sections 3 to 7) and marked so in its doc comment.
-/

/-- Permission granularity: MODEL, OBJECT or FIELD (spec section 3,
PermissionType). -/
inductive PermType
  | model
  | object
  | field
deriving DecidableEq

/-- The Perm record: the unique tuple
(type, target type key, object id, field name, codename).  Mirrors the Perm
model referenced by src/django_perms/admin.py; content_type stands for the
target type key string such as "articles.Article", and object ids are kept in
their string encoding. -/
structure Perm where
  type : PermType
  content_type : String
  object_id : Option String
  field_name : Option String
  codename : String
deriving DecidableEq

/-- The reserved wildcard codename (spec section 3). -/
def wildcard : String := "*"

/-- A permission key: a Perm record minus the codename, the granularity at
which candidate records are looked up (spec section 4.5 step 4). -/
structure PermKey where
  type : PermType
  content_type : String
  object_id : Option String
  field_name : Option String
deriving DecidableEq

/-- The Perm record with the given key and codename. -/
def permOfKey (k : PermKey) (c : String) : Perm :=
  ⟨k.type, k.content_type, k.object_id, k.field_name, c⟩

/-- Whether a record carries the given key. -/
def matchesKey (p : Perm) (k : PermKey) : Bool :=
  p.type == k.type && p.content_type == k.content_type &&
    p.object_id == k.object_id && p.field_name == k.field_name

/-- The record-shape invariant of spec section 3: object_id is set iff the
type is OBJECT, and field_name is set iff the type is FIELD. -/
def permInvariant (p : Perm) : Prop :=
  (p.object_id.isSome = true ↔ p.type = PermType.object) ∧
    (p.field_name.isSome = true ↔ p.type = PermType.field)

instance (p : Perm) : Decidable (permInvariant p) := by
  unfold permInvariant
  infer_instance

/-- Modelled from the spec: the Target Registry (spec section 4.1) is not
under src/.  An entry registers one model under its app label and model name
and lists its field names. -/
structure ModelEntry where
  app_label : String
  model_name : String
  fields : List String
deriving DecidableEq

/-- Modelled from the spec: the registry is the finite list of registered
targets (populated once, read-only afterwards). -/
abbrev Registry := List ModelEntry

/-- Modelled from the spec: registry lookup by app label and model name. -/
def resolveTarget (reg : Registry) (app modelName : String) : Option ModelEntry :=
  reg.find? (fun e => e.app_label == app && e.model_name == modelName)

/-- Splits a character list at every dot; returns the first segment and the
remaining segments.  Helper for the identifier parser. -/
def splitDotsAux : List Char → List Char × List (List Char)
  | [] => ([], [])
  | c :: rest =>
    let r := splitDotsAux rest
    if c = '.' then ([], r.1 :: r.2) else (c :: r.1, r.2)

/-- All dot-separated segments of a character list (always nonempty). -/
def splitDots (cs : List Char) : List (List Char) :=
  (splitDotsAux cs).1 :: (splitDotsAux cs).2

/-- Joins segments with dots; inverse of splitDots. -/
def joinDots : List (List Char) → List Char
  | [] => []
  | [x] => x
  | x :: y :: ys => x ++ '.' :: joinDots (y :: ys)

/-- The dot-separated segments of an identifier string. -/
def segments (s : String) : List String :=
  (splitDots s.data).map (fun cs => String.mk cs)

/-- Modelled from the spec: the structured result of parsing an identifier
(spec section 4.2), carrying the permission type, the two components of the
target type key, the optional object id and field name, and the codename. -/
structure PermissionLookup where
  type : PermType
  app_label : String
  model_name : String
  object_id : Option String
  field_name : Option String
  codename : String
deriving DecidableEq

/-- Modelled from the spec: the error taxonomy of spec section 7.
unknownField is listed there for field identifiers, but the parser below
never produces it, following the tests in src (field.py expects
Perm.DoesNotExist for a nonexistent field on add, and False on has_perm). -/
inductive PermErr
  | malformed
  | unknownTarget
  | unknownField
  | permissionNotFound
deriving DecidableEq

/-- Modelled from the spec: positional interpretation of the identifier
segments per the grammar of spec section 6.  The first segment selects the
type; the app label and model name must resolve in the registry
(test_fail_add_model_perm_by_non_existent_model expects LookupError, here
unknownTarget).  The field segment is not checked against the registry,
following the tests in src (see PermErr). -/
def parseSegs (reg : Registry) (segs : List String) : Except PermErr PermissionLookup :=
  match segs with
  | [t, app, m, c] =>
    if t = "model" then
      if (resolveTarget reg app m).isSome then
        .ok ⟨PermType.model, app, m, none, none, c⟩
      else .error .unknownTarget
    else .error .malformed
  | [t, app, m, x, c] =>
    if t = "object" then
      if (resolveTarget reg app m).isSome then
        .ok ⟨PermType.object, app, m, some x, none, c⟩
      else .error .unknownTarget
    else if t = "field" then
      if (resolveTarget reg app m).isSome then
        .ok ⟨PermType.field, app, m, none, some x, c⟩
      else .error .unknownTarget
    else .error .malformed
  | _ => .error .malformed

/-- Modelled from the spec: parse an identifier string (spec section 4.2). -/
def parse (reg : Registry) (s : String) : Except PermErr PermissionLookup :=
  parseSegs reg (segments s)

/-- The canonical segment list of a lookup, per the grammar of spec
section 6. -/
def segsOf (l : PermissionLookup) : List String :=
  match l.type with
  | PermType.model => ["model", l.app_label, l.model_name, l.codename]
  | PermType.object => ["object", l.app_label, l.model_name, l.object_id.getD "", l.codename]
  | PermType.field => ["field", l.app_label, l.model_name, l.field_name.getD "", l.codename]

/-- Modelled from the spec: format a lookup back into its dotted identifier
(spec section 4.2). -/
def format (l : PermissionLookup) : String :=
  String.mk (joinDots ((segsOf l).map String.data))

/-- A string with no dot character. -/
def dotFree (s : String) : Bool :=
  s.data.all (fun c => ! (c == '.'))

/-- A well-formed lookup (spec section 4.2): its target resolves in the
registry, its segments are dot-free, and its optional fields agree with its
type (the shape invariant of spec section 3). -/
def wellFormedLookup (reg : Registry) (l : PermissionLookup) : Bool :=
  (resolveTarget reg l.app_label l.model_name).isSome &&
    dotFree l.app_label && dotFree l.model_name && dotFree l.codename &&
    (match l.type, l.object_id, l.field_name with
     | PermType.model, none, none => true
     | PermType.object, some x, none => dotFree x
     | PermType.field, none, some x => dotFree x
     | _, _, _ => false)

/-- The Perm record a lookup denotes; the target type key is the app label
and model name joined with a dot (spec section 3). -/
def permOfLookup (l : PermissionLookup) : Perm :=
  ⟨l.type, l.app_label ++ "." ++ l.model_name, l.object_id, l.field_name, l.codename⟩

/-- The key portion of the record a lookup denotes. -/
def keyOfLookup (l : PermissionLookup) : PermKey :=
  ⟨l.type, l.app_label ++ "." ++ l.model_name, l.object_id, l.field_name⟩

/-- Modelled from the spec: a group with its directly granted permission
records (spec section 3, Subject). -/
structure UserGroup where
  perms : List Perm
deriving DecidableEq

/-- Modelled from the spec: a user subject with the superuser flag, its
directly granted permission records, and the groups it belongs to (spec
section 3, Subject). -/
structure User where
  is_superuser : Bool
  perms : List Perm
  groups : List UserGroup
deriving DecidableEq

/-- Modelled from the spec: the effective permission set of a user is its
direct grants together with the grants of every group it belongs to (spec
section 3). -/
def effectivePerms (u : User) : List Perm :=
  u.perms ++ (u.groups.map UserGroup.perms).flatten

/-- Modelled from the spec: the candidate records for a has-check, the
records in the store carrying the requested key with either the exact
codename or the wildcard codename (spec section 4.5 step 4). -/
def candidates (store : List Perm) (k : PermKey) (c : String) : List Perm :=
  store.filter (fun p => matchesKey p k && (p.codename == c || p.codename == wildcard))

/-- Modelled from the spec: the Resolution Engine has_permission (spec
section 4.5).  A superuser passes unconditionally; otherwise the user is
authorized iff its effective permission set meets the candidate set.  The
function is total into Bool, so absence of a record is a false result, never
an error (spec section 4.5 step 6). -/
def has_permission (store : List Perm) (u : User) (k : PermKey) (c : String) : Bool :=
  u.is_superuser || (candidates store k c).any (fun p => (effectivePerms u).contains p)

/-- Modelled from the spec: link a permission record directly to a user
(grant by Perm instance, spec section 4.5 grant_permission). -/
def grantDirect (u : User) (p : Perm) : User :=
  { u with perms := p :: u.perms }

/-- Modelled from the spec: link a permission record to a group. -/
def grantToGroup (g : UserGroup) (p : Perm) : UserGroup :=
  { g with perms := p :: g.perms }

/-- Modelled from the spec: add a user to a group (the fgroups.add of
test_add_model_perm_by_str in src/example/articles/tests/perms/model.py). -/
def addToGroup (u : User) (g : UserGroup) : User :=
  { u with groups := g :: u.groups }

/-- Modelled from the spec: grant by string identifier (spec section 4.5
grant_permission; fperms add_perm in the tests under src).  Parses the
identifier, then requires the exact record to pre-exist: if it is absent the
operation fails with permissionNotFound and never creates the record.  The
record store is returned unchanged on success. -/
def add_perm (reg : Registry) (store : List Perm) (u : User) (s : String) :
    Except PermErr (User × List Perm) :=
  match parse reg s with
  | .error e => .error e
  | .ok l =>
    if permOfLookup l ∈ store then .ok (grantDirect u (permOfLookup l), store)
    else .error .permissionNotFound

/-- Modelled from the spec: has-check by string identifier (the fperms
has_perm by string in the tests under src): parse, then resolve through
has_permission. -/
def has_perm_str (reg : Registry) (store : List Perm) (u : User) (s : String) :
    Except PermErr Bool :=
  match parse reg s with
  | .error e => .error e
  | .ok l => .ok (has_permission store u (keyOfLookup l) l.codename)

/-- Embeds Perm.objects.get_or_create of PermModelAdmin.add_perm
(src/django_perms/admin.py lines 69 to 78): the search kwargs are type
(always OBJECT), content type, object id and codename; field_name is not
constrained by the search and defaults to null on creation.  The get is
modelled as first match, relying on the uniqueness constraint of the record
table. -/
def admin_get_or_create (store : List Perm) (modelKey : String)
    (object_id : Option String) (codename : String) : Perm × List Perm :=
  match store.find? (fun p => p.type == PermType.object && p.content_type == modelKey &&
      p.object_id == object_id && p.codename == codename) with
  | some p => (p, store)
  | none => (⟨PermType.object, modelKey, object_id, none, codename⟩,
      ⟨PermType.object, modelKey, object_id, none, codename⟩ :: store)

/-- Embeds PermModelAdmin.add_perm (src/django_perms/admin.py lines 69 to
80): object_id is the pk of obj when obj is present and null otherwise, the
type is always OBJECT, the record is obtained by get_or_create and then
linked to the user. -/
def admin_add_perm (store : List Perm) (modelKey : String) (u : User)
    (codename : String) (obj : Option String) : User × List Perm :=
  let r := admin_get_or_create store modelKey obj codename
  (grantDirect u r.1, r.2)

/-- The database error the admin has_perm can surface: Perm.objects.get
raises MultipleObjectsReturned when more than one row matches (it is not
caught by the except clause in src/django_perms/admin.py line 90). -/
inductive AdminErr
  | multipleObjectsReturned
deriving DecidableEq

/-- Embeds PermModelAdmin.has_perm (src/django_perms/admin.py lines 82 to
91): a superuser passes immediately; otherwise the rows with the content
type of the admin model, the requested codename and object id are fetched
with get (no row: DoesNotExist is caught and False returned; one row: the
manager membership check user.perms.has_perm(perm), modelled from the spec
as membership in the effective permission set; several rows:
MultipleObjectsReturned propagates). -/
def admin_has_perm (store : List Perm) (modelKey : String) (u : User)
    (codename : String) (obj : Option String) : Except AdminErr Bool :=
  if u.is_superuser then .ok true
  else
    match store.filter (fun p => p.content_type == modelKey &&
        p.codename == codename && p.object_id == obj) with
    | [] => .ok false
    | [p] => .ok ((effectivePerms u).contains p)
    | _ => .error .multipleObjectsReturned

/-- The configuration attributes of PermModelAdmin
(src/django_perms/admin.py lines 38 to 40). -/
structure PermModelAdminConfig where
  perms_per_instance : Bool
  perms_per_instance_author_change : Bool
  perms_per_instance_author_delete : Bool
deriving DecidableEq

/-- Embeds the hasattr check of PermModelAdmin.save_model
(src/django_perms/admin.py line 48).  The class itself defines
perms_per_instance_author_change and perms_per_instance_author_delete (lines
39 to 40), so hasattr is true for exactly those two attribute names on every
instance, irrespective of the boolean values stored in them; the
configuration values play no part in the test. -/
def hasattr_author_toggle (_cfg : PermModelAdminConfig) (codename : String) : Bool :=
  codename == "change" || codename == "delete"

/-- Embeds PermModelAdmin.save_model (src/django_perms/admin.py lines 42 to
49): on creation of a new instance (change false) with perms_per_instance
enabled, add_perm is run for each of change and delete whose author toggle
attribute exists. -/
def save_model (cfg : PermModelAdminConfig) (store : List Perm) (modelKey : String)
    (u : User) (objPk : String) (change : Bool) : User × List Perm :=
  if !change && cfg.perms_per_instance then
    (["change", "delete"]).foldl
      (fun acc codename =>
        if hasattr_author_toggle cfg codename then
          admin_add_perm acc.2 modelKey acc.1 codename (some objPk)
        else acc)
      (u, store)
  else (u, store)

/-- Embeds PermChangeList.get_queryset (src/django_perms/admin.py lines 20
to 33): a superuser sees the whole queryset; any other user sees exactly the
rows of the queryset whose pk appears as the object id of a record of the
admin model content type with codename change, non-null object id, and a
direct user grant (user_perms joined on the requesting user). -/
def get_queryset (store : List Perm) (modelKey : String) (u : User)
    (qs : List String) : List String :=
  if u.is_superuser then qs
  else
    let object_ids := (store.filter (fun p => p.content_type == modelKey &&
        p.object_id.isSome && u.perms.contains p && p.codename == "change")).filterMap
        Perm.object_id
    qs.filter (fun pk => object_ids.contains pk)

/-- The registry fixture of the example app under src: the articles app with
the Article model and its name field. -/
def articlesRegistry : Registry :=
  [⟨"articles", "Article", ["name"]⟩]

/-- A plain user fixture: no superuser flag, no grants, no groups. -/
def plainUser : User :=
  ⟨false, [], []⟩

/-- A superuser fixture with no grants. -/
def superUser : User :=
  ⟨true, [], []⟩

/-- The model-level key for the Article target of the example app. -/
def articleModelKey : PermKey :=
  ⟨PermType.model, "articles.Article", none, none⟩

/-- A model-level add permission record for Article. -/
def articleAddPerm : Perm :=
  ⟨PermType.model, "articles.Article", none, none, "add"⟩

/-- The model-level wildcard permission record for Article. -/
def articleWildcardPerm : Perm :=
  permOfKey articleModelKey wildcard

/-- A user holding only the Article wildcard record directly. -/
def wildcardHolder : User :=
  ⟨false, [articleWildcardPerm], []⟩

/-- A field-level add permission record for the name field of Article. -/
def fieldAddNamePerm : Perm :=
  ⟨PermType.field, "articles.Article", none, some "name", "add"⟩

/-- The lookup parsed from model.articles.Article.delete. -/
def deleteLookup : PermissionLookup :=
  ⟨PermType.model, "articles", "Article", none, none, "delete"⟩

/-- The lookup parsed from field.articles.Article.foo.add; foo is not a
field of Article in the registry fixture. -/
def fooFieldLookup : PermissionLookup :=
  ⟨PermType.field, "articles", "Article", none, some "foo", "add"⟩

/-- The lookup parsed from field.articles.Article.name.add. -/
def nameAddLookup : PermissionLookup :=
  ⟨PermType.field, "articles", "Article", none, some "name", "add"⟩

/-- An admin configuration with per-instance permissions enabled and the
author change toggle set to False. -/
def buggedCfg : PermModelAdminConfig :=
  ⟨true, false, true⟩

/-- An object-level change permission record for Article instance 1. -/
def objChangePerm : Perm :=
  ⟨PermType.object, "articles.Article", some "1", none, "change"⟩

/-- A user holding only the object-level change record directly. -/
def changeHolder : User :=
  ⟨false, [objChangePerm], []⟩


theorem joinDots_cons_cons (c : Char) (h : List Char) (t : List (List Char)) :
    joinDots ((c :: h) :: t) = c :: joinDots (h :: t) := by
  cases t with
  | nil => rfl
  | cons y ys => simp [joinDots]

theorem joinDots_splitDots (cs : List Char) : joinDots (splitDots cs) = cs := by
  induction cs with
  | nil => rfl
  | cons c rest ih =>
    by_cases hc : c = '.'
    · subst hc
      have h1 : splitDots ('.' :: rest) =
          [] :: (splitDotsAux rest).1 :: (splitDotsAux rest).2 := by
        simp [splitDots, splitDotsAux]
      rw [h1]
      have h2 : joinDots ([] :: (splitDotsAux rest).1 :: (splitDotsAux rest).2) =
          '.' :: joinDots (splitDots rest) := by
        simp [joinDots, splitDots]
      rw [h2, ih]
    · have h1 : splitDots (c :: rest) =
          (c :: (splitDotsAux rest).1) :: (splitDotsAux rest).2 := by
        simp [splitDots, splitDotsAux, hc]
      rw [h1, joinDots_cons_cons]
      show c :: joinDots (splitDots rest) = c :: rest
      rw [ih]

theorem splitDotsAux_noDot (x : List Char) (hx : '.' ∉ x) :
    splitDotsAux x = (x, []) := by
  induction x with
  | nil => rfl
  | cons c x' ih =>
    have hc : ¬ c = '.' := fun h => hx (h ▸ List.mem_cons_self c x')
    have hx' : '.' ∉ x' := fun h => hx (List.mem_cons_of_mem c h)
    simp [splitDotsAux, hc, ih hx']

theorem splitDotsAux_append_dot (x : List Char) (cs : List Char) (hx : '.' ∉ x) :
    splitDotsAux (x ++ '.' :: cs) = (x, (splitDotsAux cs).1 :: (splitDotsAux cs).2) := by
  induction x with
  | nil => simp [splitDotsAux]
  | cons c x' ih =>
    have hc : ¬ c = '.' := fun h => hx (h ▸ List.mem_cons_self c x')
    have hx' : '.' ∉ x' := fun h => hx (List.mem_cons_of_mem c h)
    simp [splitDotsAux, hc, ih hx']

theorem splitDots_joinDots (xs : List (List Char)) :
    ∀ x : List Char, '.' ∉ x → (∀ y ∈ xs, '.' ∉ y) →
      splitDots (joinDots (x :: xs)) = x :: xs := by
  induction xs with
  | nil =>
    intro x hx _
    simp [splitDots, joinDots, splitDotsAux_noDot x hx]
  | cons y ys ih =>
    intro x hx hall
    have h1 : joinDots (x :: y :: ys) = x ++ '.' :: joinDots (y :: ys) := rfl
    have h3 : splitDots (joinDots (y :: ys)) = y :: ys :=
      ih y (hall y (List.mem_cons_self y ys))
        (fun z hz => hall z (List.mem_cons_of_mem y hz))
    have h4 : splitDotsAux (joinDots (y :: ys)) = (y, ys) := by
      have h5 := h3
      simp only [splitDots] at h5
      exact Prod.ext (by simpa using congrArg List.head? h5)
        (by simpa using congrArg List.tail h5)
    have h2 := splitDotsAux_append_dot x (joinDots (y :: ys)) hx
    simp [splitDots, h1, h2, h4]

theorem dotFree_iff (s : String) : dotFree s = true ↔ '.' ∉ s.data := by
  simp only [dotFree, List.all_eq_true, Bool.not_eq_eq_eq_not, Bool.not_true, beq_eq_false_iff_ne]
  constructor
  · intro h hm
    exact h '.' hm rfl
  · intro h c hc he
    exact h (he ▸ hc)

theorem segments_mk_joinDots (segs : List String) (x : String) (hx : dotFree x = true)
    (hall : ∀ y ∈ segs, dotFree y = true) :
    segments (String.mk (joinDots ((x :: segs).map String.data))) = x :: segs := by
  have hsplit : splitDots (joinDots ((x :: segs).map String.data)) =
      (x :: segs).map String.data := by
    have := splitDots_joinDots (segs.map String.data) x.data
      ((dotFree_iff x).mp hx)
      (fun y hy => by
        rcases List.mem_map.mp hy with ⟨z, hz, rfl⟩
        exact (dotFree_iff z).mp (hall z hz))
    simpa using this
  simp only [segments, String.data]
  rw [hsplit]
  rw [List.map_map]
  have : (fun cs => String.mk cs) ∘ String.data = fun s : String => s := by
    funext s
    rfl
  rw [this, List.map_id']

theorem parseSegs_ok_inv (reg : Registry) (segs : List String) (l : PermissionLookup)
    (h : parseSegs reg segs = .ok l) :
    segsOf l = segs ∧ (resolveTarget reg l.app_label l.model_name).isSome = true := by
  match segs with
  | [] => simp [parseSegs] at h
  | [t] => simp [parseSegs] at h
  | [t, a] => simp [parseSegs] at h
  | [t, a, m] => simp [parseSegs] at h
  | [t, a, m, c] =>
    simp only [parseSegs] at h
    split_ifs at h with h1 h2
    · injection h with h3
      subst h3
      subst h1
      exact ⟨rfl, h2⟩
  | [t, a, m, x, c] =>
    simp only [parseSegs] at h
    split_ifs at h with h1 h2 h3 h4
    · injection h with h5
      subst h5
      subst h1
      exact ⟨rfl, h2⟩
    · injection h with h5
      subst h5
      subst h3
      exact ⟨rfl, h4⟩
  | t :: a :: m :: x :: c :: d :: rest => simp [parseSegs] at h

theorem format_of_parse (reg : Registry) (s : String) (l : PermissionLookup)
    (h : parse reg s = .ok l) : format l = s := by
  have hsegs : segsOf l = segments s := (parseSegs_ok_inv reg (segments s) l h).1
  unfold format
  rw [hsegs]
  have hmap : (segments s).map String.data = splitDots s.data := by
    simp only [segments, List.map_map]
    have : String.data ∘ (fun cs => String.mk cs) = fun cs : List Char => cs := by
      funext cs
      rfl
    rw [this, List.map_id']
  rw [hmap, joinDots_splitDots]

theorem parse_of_format (reg : Registry) (l : PermissionLookup)
    (h : wellFormedLookup reg l = true) : parse reg (format l) = .ok l := by
  obtain ⟨ty, app, m, oid, fn, c⟩ := l
  cases ty <;> cases oid <;> cases fn <;>
    simp only [wellFormedLookup, Bool.and_eq_true, Bool.false_eq_true, and_false] at h
  case model.none.none =>
    obtain ⟨⟨⟨⟨hres, happ⟩, hm⟩, hc⟩, _⟩ := h
    have hseg : segments (format ⟨PermType.model, app, m, none, none, c⟩) =
        ["model", app, m, c] := by
      have := segments_mk_joinDots [app, m, c] "model" (by decide)
        (fun y hy => by
          simp only [List.mem_cons, List.not_mem_nil, or_false] at hy
          rcases hy with rfl | rfl | rfl
          · exact happ
          · exact hm
          · exact hc)
      simpa [format, segsOf] using this
    simp only [parse, hseg, parseSegs, if_pos rfl, hres, if_pos]
  case object.some.none x =>
    obtain ⟨⟨⟨⟨hres, happ⟩, hm⟩, hc⟩, hx⟩ := h
    have hseg : segments (format ⟨PermType.object, app, m, some x, none, c⟩) =
        ["object", app, m, x, c] := by
      have := segments_mk_joinDots [app, m, x, c] "object" (by decide)
        (fun y hy => by
          simp only [List.mem_cons, List.not_mem_nil, or_false] at hy
          rcases hy with rfl | rfl | rfl | rfl
          · exact happ
          · exact hm
          · exact hx
          · exact hc)
      simpa [format, segsOf] using this
    simp only [parse, hseg, parseSegs, if_pos rfl, hres, if_pos]
  case field.none.some x =>
    obtain ⟨⟨⟨⟨hres, happ⟩, hm⟩, hc⟩, hx⟩ := h
    have hseg : segments (format ⟨PermType.field, app, m, none, some x, c⟩) =
        ["field", app, m, x, c] := by
      have := segments_mk_joinDots [app, m, x, c] "field" (by decide)
        (fun y hy => by
          simp only [List.mem_cons, List.not_mem_nil, or_false] at hy
          rcases hy with rfl | rfl | rfl | rfl
          · exact happ
          · exact hm
          · exact hx
          · exact hc)
      simpa [format, segsOf] using this
    have hno : ¬ ("field" : String) = "object" := by decide
    simp only [parse, hseg, parseSegs, if_neg hno, if_pos rfl, hres, if_pos]

theorem mem_candidates (store : List Perm) (k : PermKey) (c : String) (p : Perm) :
    p ∈ candidates store k c ↔
      p ∈ store ∧ matchesKey p k = true ∧ (p.codename = c ∨ p.codename = wildcard) := by
  simp [candidates, List.mem_filter]

theorem mem_effectivePerms (u : User) (p : Perm) :
    p ∈ effectivePerms u ↔ p ∈ u.perms ∨ ∃ g ∈ u.groups, p ∈ g.perms := by
  simp [effectivePerms, List.mem_append, List.mem_flatten, List.mem_map]

theorem has_permission_eq_true_iff (store : List Perm) (u : User) (k : PermKey) (c : String) :
    has_permission store u k c = true ↔
      u.is_superuser = true ∨ ∃ p ∈ candidates store k c, p ∈ effectivePerms u := by
  simp [has_permission, List.any_eq_true]

theorem has_permission_false_of_absent (store : List Perm) (u : User) (k : PermKey)
    (c : String) (hsu : u.is_superuser = false)
    (habs : ∀ p ∈ store, ¬(matchesKey p k = true ∧ (p.codename = c ∨ p.codename = wildcard))) :
    has_permission store u k c = false := by
  rw [Bool.eq_false_iff]
  intro htrue
  rw [has_permission_eq_true_iff] at htrue
  rcases htrue with h | ⟨p, hpc, _⟩
  · rw [hsu] at h
    exact Bool.false_ne_true h
  · rcases (mem_candidates _ _ _ _).mp hpc with ⟨hps, hm, hc2⟩
    exact habs p hps ⟨hm, hc2⟩

theorem admin_has_perm_false_of_absent (store : List Perm) (modelKey : String) (u : User)
    (c : String) (obj : Option String) (hsu : u.is_superuser = false)
    (habs : ∀ p ∈ store, ¬(p.content_type = modelKey ∧ p.codename = c ∧ p.object_id = obj)) :
    admin_has_perm store modelKey u c obj = .ok false := by
  unfold admin_has_perm
  rw [hsu]
  have hfil : store.filter (fun p => p.content_type == modelKey &&
      p.codename == c && p.object_id == obj) = [] := by
    rw [List.filter_eq_nil_iff]
    intro p hp
    simp only [Bool.and_eq_true, beq_iff_eq, not_and]
    intro h1 h2
    exact habs p hp ⟨h1.1, h1.2, h2⟩
  simp [hfil]

/-- C1: a subject holding a grant on the wildcard-codename record for a key
passes has_permission for every codename at that key, and granting by string
identifier never changes the record store, so the wildcard grant neither
creates nor implies a specific-codename Permission record. -/
theorem C1_wildcard_semantics (reg : Registry) (store : List Perm) (u : User) (k : PermKey)
    (hw : permOfKey k wildcard ∈ store)
    (hg : permOfKey k wildcard ∈ effectivePerms u) :
    (∀ c : String, has_permission store u k c = true) ∧
    (∀ s u' store', add_perm reg store u s = .ok (u', store') → store' = store) := by
  constructor
  · intro c
    rw [has_permission_eq_true_iff]
    refine Or.inr ⟨permOfKey k wildcard, ?_, hg⟩
    rw [mem_candidates]
    exact ⟨hw, by simp [matchesKey, permOfKey], Or.inr rfl⟩
  · intro s u' store' h
    unfold add_perm at h
    cases hp : parse reg s with
    | error e =>
      rw [hp] at h
      exact absurd h (by simp)
    | ok l =>
      rw [hp] at h
      by_cases hm : permOfLookup l ∈ store
      · simp only [hm, if_pos] at h
        injection h with h2
        exact (congrArg Prod.snd h2).symm
      · simp [hm] at h

/-- C1 witness: with only the Article wildcard record in the store and a
user holding it, has_permission is true for the codename whatever. -/
theorem C1_wildcard_semantics_witness :
    has_permission [articleWildcardPerm] wildcardHolder articleModelKey "whatever" = true :=
  (C1_wildcard_semantics articlesRegistry [articleWildcardPerm] wildcardHolder articleModelKey
    (by decide) (by decide)).1 "whatever"

/-- C2: after granting a record to a group and adding the user to that
group, has_permission resolves true for the user with no direct grant; while
the user is not in the group and nothing in its effective set matches, the
group grant alone leaves has_permission false. -/
theorem C2_group_inheritance (store : List Perm) (u : User) (g : UserGroup) (k : PermKey)
    (c : String) (P : Perm)
    (hP : P ∈ store) (hmatch : matchesKey P k = true)
    (hcode : P.codename = c ∨ P.codename = wildcard) :
    has_permission store (addToGroup u (grantToGroup g P)) k c = true ∧
    (u.is_superuser = false → P ∉ u.perms → (∀ g' ∈ u.groups, P ∉ g'.perms) →
      (∀ q ∈ candidates store k c, q = P) → has_permission store u k c = false) := by
  constructor
  · rw [has_permission_eq_true_iff]
    refine Or.inr ⟨P, (mem_candidates _ _ _ _).mpr ⟨hP, hmatch, hcode⟩, ?_⟩
    rw [mem_effectivePerms]
    refine Or.inr ⟨grantToGroup g P, ?_, ?_⟩
    · simp [addToGroup]
    · simp [grantToGroup]
  · intro hsu hdirect hgroups honly
    rw [Bool.eq_false_iff]
    intro htrue
    rw [has_permission_eq_true_iff] at htrue
    rcases htrue with h | ⟨q, hqc, hqe⟩
    · rw [hsu] at h
      exact Bool.false_ne_true h
    · rw [honly q hqc] at hqe
      rcases (mem_effectivePerms u P).mp hqe with hd | ⟨g2, hg2, hp2⟩
      · exact hdirect hd
      · exact hgroups g2 hg2 hp2

/-- C2 witness: granting the Article add record to a fresh group and adding
a plain user to it makes has_permission true; the same user outside the
group resolves false. -/
theorem C2_group_inheritance_witness :
    has_permission [articleAddPerm] (addToGroup plainUser (grantToGroup ⟨[]⟩ articleAddPerm))
      articleModelKey "add" = true ∧
    has_permission [articleAddPerm] plainUser articleModelKey "add" = false :=
  ⟨(C2_group_inheritance [articleAddPerm] plainUser ⟨[]⟩ articleModelKey "add" articleAddPerm
      (by decide) (by decide) (Or.inl (by decide))).1,
   (C2_group_inheritance [articleAddPerm] plainUser ⟨[]⟩ articleModelKey "add" articleAddPerm
      (by decide) (by decide) (Or.inl (by decide))).2 rfl (by decide) (by decide) (by decide)⟩

/-- C3: a superuser passes both the admin has_perm of
src/django_perms/admin.py (the check on line 83 precedes any record lookup)
and the resolution engine has_permission, for every store, codename and
target; both are total, so the bypass never raises. -/
theorem C3_superuser_bypass (store : List Perm) (modelKey : String) (u : User)
    (k : PermKey) (c : String) (obj : Option String)
    (hsu : u.is_superuser = true) :
    admin_has_perm store modelKey u c obj = .ok true ∧ has_permission store u k c = true := by
  constructor
  · simp [admin_has_perm, hsu]
  · simp [has_permission, hsu]

/-- C3 witness: a superuser passes with zero Permission records in
existence. -/
theorem C3_superuser_bypass_witness :
    admin_has_perm [] "articles.Article" superUser "change" none = .ok true ∧
    has_permission [] superUser articleModelKey "whatever" = true :=
  C3_superuser_bypass [] "articles.Article" superUser articleModelKey "whatever" none rfl

/-- C4: granting by string identifier when the exact record does not
pre-exist fails with permissionNotFound (the record is not created: the
string path never writes to the record store); granting the same capability
through the explicit admin add_perm path succeeds, creating the record via
get_or_create and linking it to the user. -/
theorem C4_grant_strictness (reg : Registry) (store : List Perm) (u : User) (s : String)
    (l : PermissionLookup) (modelKey : String) (oid : Option String) (c : String)
    (hparse : parse reg s = .ok l)
    (habs : permOfLookup l ∉ store)
    (habs2 : ∀ p ∈ store, ¬(p.type = PermType.object ∧ p.content_type = modelKey ∧
      p.object_id = oid ∧ p.codename = c)) :
    add_perm reg store u s = .error .permissionNotFound ∧
    (⟨PermType.object, modelKey, oid, none, c⟩ : Perm) ∈ (admin_add_perm store modelKey u c oid).2 ∧
    (⟨PermType.object, modelKey, oid, none, c⟩ : Perm) ∈ (admin_add_perm store modelKey u c oid).1.perms := by
  have hfind : store.find? (fun p => p.type == PermType.object && p.content_type == modelKey &&
      p.object_id == oid && p.codename == c) = none := by
    rw [List.find?_eq_none]
    intro p hp
    simp only [Bool.and_eq_true, beq_iff_eq, not_and]
    intro h1 h2
    exact absurd ⟨h1.1.1, h1.1.2, h1.2, h2⟩ (habs2 p hp)
  refine ⟨?_, ?_, ?_⟩
  · unfold add_perm
    rw [hparse]
    simp [habs]
  · unfold admin_add_perm admin_get_or_create
    rw [hfind]
    simp
  · unfold admin_add_perm admin_get_or_create
    rw [hfind]
    simp [grantDirect]

/-- C4 witness: with only the Article model add record in the store,
granting model.articles.Article.delete by string fails with
permissionNotFound, while the explicit pair (change, instance 1) creates and
links the object record. -/
theorem C4_grant_strictness_witness :
    add_perm articlesRegistry [articleAddPerm] plainUser "model.articles.Article.delete" =
      .error .permissionNotFound ∧
    (⟨PermType.object, "articles.Article", some "1", none, "change"⟩ : Perm) ∈
      (admin_add_perm [articleAddPerm] "articles.Article" plainUser "change" (some "1")).2 ∧
    (⟨PermType.object, "articles.Article", some "1", none, "change"⟩ : Perm) ∈
      (admin_add_perm [articleAddPerm] "articles.Article" plainUser "change" (some "1")).1.perms :=
  C4_grant_strictness articlesRegistry [articleAddPerm] plainUser
    "model.articles.Article.delete" deleteLookup "articles.Article" (some "1") "change"
    rfl (by decide) (by decide)

/-- C5 counterexample: the claim quantifies over every subject, but a
superuser subject with zero Permission records (so no matching record at
all, the candidate set is empty) gets true from has_permission, not false,
by the superuser bypass of spec section 4.5 step 1. -/
theorem C5_superuser_counterexample :
    candidates [] articleModelKey "add" = [] ∧
    has_permission [] superUser articleModelKey "add" = true := by
  constructor
  · rfl
  · rfl

/-- C5 amended: for every non-superuser subject, codename and key with no
matching record (neither exact codename nor wildcard), has_permission
returns false; likewise the admin has_perm of src/django_perms/admin.py
returns ok false when no row matches its filter (the DoesNotExist branch).
Both functions are total, so absence never raises. -/
theorem C5_absence_not_error (store : List Perm) (u : User) (k : PermKey) (c : String)
    (modelKey : String) (obj : Option String)
    (hsu : u.is_superuser = false)
    (habs : ∀ p ∈ store, ¬(matchesKey p k = true ∧ (p.codename = c ∨ p.codename = wildcard))) :
    has_permission store u k c = false ∧
    ((∀ p ∈ store, ¬(p.content_type = modelKey ∧ p.codename = c ∧ p.object_id = obj)) →
      admin_has_perm store modelKey u c obj = .ok false) := by
  constructor
  · exact has_permission_false_of_absent store u k c hsu habs
  · intro habs2
    exact admin_has_perm_false_of_absent store modelKey u c obj hsu habs2

/-- C5 witness: a plain user against an empty store resolves false on both
paths. -/
theorem C5_absence_not_error_witness :
    has_permission [] plainUser articleModelKey "add" = false ∧
    admin_has_perm [] "articles.Article" plainUser "add" none = .ok false :=
  ⟨(C5_absence_not_error [] plainUser articleModelKey "add" "articles.Article" none rfl
      (by decide)).1,
   (C5_absence_not_error [] plainUser articleModelKey "add" "articles.Article" none rfl
      (by decide)).2 (by decide)⟩

/-- C6 counterexample: with a registry where Article has only the field
name, the identifier field.articles.Article.foo.add names a nonexistent
field, yet granting by that string fails with permissionNotFound, not
unknownField, and the has-check returns ok false rather than raising; this
follows the tests in src (field.py lines 71 to 74 expect Perm.DoesNotExist
and lines 90 to 95 expect False). -/
theorem C6_no_unknown_field_error :
    (∀ e ∈ articlesRegistry, "foo" ∉ e.fields) ∧
    add_perm articlesRegistry [fieldAddNamePerm] plainUser "field.articles.Article.foo.add" =
      .error PermErr.permissionNotFound ∧
    PermErr.permissionNotFound ≠ PermErr.unknownField ∧
    has_perm_str articlesRegistry [fieldAddNamePerm] plainUser "field.articles.Article.foo.add" =
      .ok false := by
  refine ⟨by decide, rfl, by decide, rfl⟩

/-- C6 amended: a field identifier whose field segment names no field of the
resolved type is not specially detected: grant-by-string fails with
permissionNotFound exactly because the record is absent and never with
unknownField, and the has-check returns ok false when nothing matches. -/
theorem C6_field_not_validated (reg : Registry) (store : List Perm) (u : User)
    (s : String) (l : PermissionLookup) (fn : String)
    (hparse : parse reg s = .ok l)
    (_hty : l.type = PermType.field)
    (_hfn : l.field_name = some fn)
    (_hnofield : ∀ e, resolveTarget reg l.app_label l.model_name = some e → fn ∉ e.fields) :
    (∀ e, add_perm reg store u s = .error e → e ≠ PermErr.unknownField) ∧
    (permOfLookup l ∉ store → add_perm reg store u s = .error PermErr.permissionNotFound) ∧
    (u.is_superuser = false →
      (∀ p ∈ store, ¬(matchesKey p (keyOfLookup l) = true ∧
        (p.codename = l.codename ∨ p.codename = wildcard))) →
      has_perm_str reg store u s = .ok false) := by
  refine ⟨?_, ?_, ?_⟩
  · intro e he
    unfold add_perm at he
    rw [hparse] at he
    by_cases hm : permOfLookup l ∈ store
    · simp [hm] at he
    · simp only [hm, if_neg, if_false] at he
      injection he with h2
      rw [← h2]
      decide
  · intro hm
    unfold add_perm
    rw [hparse]
    simp [hm]
  · intro hsu habs
    unfold has_perm_str
    rw [hparse]
    show Except.ok (has_permission store u (keyOfLookup l) l.codename) = .ok false
    rw [has_permission_false_of_absent store u (keyOfLookup l) l.codename hsu habs]

/-- C6 amended witness: the concrete nonexistent-field identifier from the
tests under src. -/
theorem C6_field_not_validated_witness :
    add_perm articlesRegistry [fieldAddNamePerm] plainUser "field.articles.Article.foo.add" =
      .error PermErr.permissionNotFound ∧
    has_perm_str articlesRegistry [fieldAddNamePerm] plainUser "field.articles.Article.foo.add" =
      .ok false :=
  ⟨(C6_field_not_validated articlesRegistry [fieldAddNamePerm] plainUser
      "field.articles.Article.foo.add" fooFieldLookup "foo" rfl rfl rfl (by decide)).2.1
      (by decide),
   (C6_field_not_validated articlesRegistry [fieldAddNamePerm] plainUser
      "field.articles.Article.foo.add" fooFieldLookup "foo" rfl rfl rfl (by decide)).2.2
      rfl (by decide)⟩

/-- C7 (code bug): in save_model the author toggles are read with hasattr,
and both attributes are defined on the class (src/django_perms/admin.py
lines 39 to 40), so setting perms_per_instance_author_change to False does
not prevent the change grant: saving a new instance under buggedCfg still
links the object-level change record to the author. -/
theorem C7_author_toggle_ignored :
    buggedCfg.perms_per_instance_author_change = false ∧
    (⟨PermType.object, "articles.Article", some "1", none, "change"⟩ : Perm) ∈
      (save_model buggedCfg [] "articles.Article" plainUser "1" false).1.perms := by
  refine ⟨rfl, by decide⟩

/-- C8 (code bug): the admin add_perm called with no target instance creates
a record with type OBJECT and object_id null (src/django_perms/admin.py
lines 70 to 78 pass PERM_TYPE_OBJECT unconditionally), violating the
invariant that object_id is set iff the type is OBJECT. -/
theorem C8_invariant_violated_without_instance :
    (⟨PermType.object, "articles.Article", none, none, "change"⟩ : Perm) ∈
      (admin_add_perm [] "articles.Article" plainUser "change" none).2 ∧
    ¬ permInvariant ⟨PermType.object, "articles.Article", none, none, "change"⟩ := by
  refine ⟨by decide, by decide⟩

/-- C9: the identifier parser and formatter are mutually inverse: whenever
parse succeeds on a string the formatted lookup reproduces that string, and
every well-formed lookup parses back from its formatted identifier. -/
theorem C9_round_trip (reg : Registry) :
    (∀ s l, parse reg s = .ok l → format l = s) ∧
    (∀ l, wellFormedLookup reg l = true → parse reg (format l) = .ok l) :=
  ⟨fun s l h => format_of_parse reg s l h, fun l h => parse_of_format reg l h⟩

/-- C9 witness: the round trip on the field identifier of the tests under
src and on its lookup. -/
theorem C9_round_trip_witness :
    format nameAddLookup = "field.articles.Article.name.add" ∧
    parse articlesRegistry "field.articles.Article.name.add" = .ok nameAddLookup :=
  ⟨(C9_round_trip articlesRegistry).1 "field.articles.Article.name.add" nameAddLookup rfl,
   (C9_round_trip articlesRegistry).2 nameAddLookup (by decide)⟩

/-- C10: the change list queryset of PermChangeList.get_queryset returns,
for a superuser, the whole queryset, and for any other user exactly the rows
whose pk is the object id of a record of the admin model content type with
codename change, non-null object id, granted directly to that user; grants
through groups or under the wildcard codename do not contribute. -/
theorem C10_changelist_queryset (store : List Perm) (modelKey : String) (u : User)
    (qs : List String) :
    (u.is_superuser = true → get_queryset store modelKey u qs = qs) ∧
    (u.is_superuser = false → ∀ pk, pk ∈ get_queryset store modelKey u qs ↔
      (pk ∈ qs ∧ ∃ p ∈ store, p ∈ u.perms ∧ p.content_type = modelKey ∧
        p.codename = "change" ∧ p.object_id = some pk)) := by
  constructor
  · intro h
    simp [get_queryset, h]
  · intro h pk
    simp only [get_queryset, h, Bool.false_eq_true, if_false, List.mem_filter,
      List.elem_eq_mem, List.mem_filterMap, List.mem_filter, Bool.and_eq_true,
      beq_iff_eq, decide_eq_true_eq, Option.isSome_iff_exists]
    constructor
    · rintro ⟨hqs, p, ⟨hps, ⟨⟨hct, hex⟩, hup⟩, hcn⟩, hoid⟩
      exact ⟨hqs, p, hps, hup, hct, hcn, hoid⟩
    · rintro ⟨hqs, p, hps, hup, hct, hcn, hoid⟩
      exact ⟨hqs, p, ⟨hps, ⟨⟨hct, ⟨pk, hoid⟩⟩, hup⟩, hcn⟩, hoid⟩

/-- C10 witness: a user directly holding the object-level change record for
instance 1 sees exactly that row of the queryset. -/
theorem C10_changelist_queryset_witness :
    "1" ∈ get_queryset [objChangePerm] "articles.Article" changeHolder ["1", "2"] :=
  ((C10_changelist_queryset [objChangePerm] "articles.Article" changeHolder ["1", "2"]).2
    rfl "1").mpr (by decide)
